import Mathlib

/-!
Verification development for the ResupplyPlanner repository.

The definitions below are a shallow embedding, in Lean 4, of the parts of the
Python source relevant to the stated properties:

* `src/src/app/crud.py` — `bulk_upsert_systems`, `create_or_update_system`,
  `get_or_create_station`, the numeric coercion of
  `create_or_update_station_commodities`;
* `src/src/run_listener.py` — `parse_and_update_system`;
* `src/src/app/autocomplete.py` — `SystemAutocomplete._is_sorted` and
  `SystemAutocomplete.search`;
* `src/scripts/plan_route.py` — `find_best_system_at_range` and `plan_route`.

Modelling conventions:

* Python `str` is modelled as `List Char` (`Str`); Python string comparison is
  code-point lexicographic, modelled by `lexLt`.
* Timezone-aware timestamps are modelled as integers (`Int`): the code only
  ever compares them as instants.
* Double-precision floats are modelled as rationals.  Comparisons that the
  source performs on `math.sqrt` values are embedded as exact rational
  decisions of the same real-number comparison (see `distLE`, `leSqrtMul`,
  `scoreLt`); the derivations are given at each definition.
* A SQL table keyed by a primary key is modelled as a function from the key to
  `Option row`; `INSERT ... ON CONFLICT DO UPDATE ... WHERE` is modelled by the
  corresponding conditional point update, and the statement `rowcount` (rows
  inserted plus rows actually updated; rows skipped by the `WHERE` freshness
  predicate are not counted) is returned alongside the new table state.
-/

set_option maxHeartbeats 1600000

abbrev Str : Type := List Char

/-- Row of the `systems` table (`src/src/app/models.py`, class `System`).
`coords` is the `POINTZ` value built by `ST_MakePoint(x, y, z)`, modelled as
the triple of its coordinates.  `requires_permit` has server default `FALSE`. -/
structure SysRow where
  name : Str
  x : ℚ
  y : ℚ
  z : ℚ
  coords : ℚ × ℚ × ℚ
  requiresPermit : Bool
  updatedAt : Int
deriving DecidableEq

/-- The `systems` table, keyed by `system_address`. -/
abbrev SysStore : Type := Int → Option SysRow

/-- The empty `systems` table. -/
def sysEmpty : SysStore := fun _ => none

/-- One dictionary of the `systems_data` list passed to `bulk_upsert_systems`
(see the callers in `src/scripts/manual_systems_update.py` and the CSV
converter: `system_address`, `name`, `x`, `y`, `z`, `coords`, `updated_at`,
and optionally `requiresPermit`; a missing `requires_permit` key falls to the
server default `FALSE`, which we represent by the field value itself). -/
structure SysRecord where
  systemAddress : Int
  name : Str
  x : ℚ
  y : ℚ
  z : ℚ
  coords : ℚ × ℚ × ℚ
  requiresPermit : Bool
  updatedAt : Int
deriving DecidableEq

/-- The row inserted for a record when no row with its key exists
(`pg_insert(models.System).values(systems_data)`): every column comes from the
record. -/
def insertRowOfRecord (r : SysRecord) : SysRow :=
  ⟨r.name, r.x, r.y, r.z, r.coords, r.requiresPermit, r.updatedAt⟩

/-- The row produced by the `ON CONFLICT DO UPDATE` branch of
`bulk_upsert_systems` (`src/src/app/crud.py` lines 30-41): the `set_` clause
overwrites `name`, `x`, `y`, `z`, `coords`, `updated_at` from the excluded
record; `requires_permit` is NOT in `set_` and keeps the stored value. -/
def conflictUpdateRow (old : SysRow) (r : SysRecord) : SysRow :=
  ⟨r.name, r.x, r.y, r.z, r.coords, old.requiresPermit, r.updatedAt⟩

/-- Processing of one record by `bulk_upsert_systems`: insert when absent; on
conflict update only when `models.System.updated_at < stmt.excluded.updated_at`
(the `where=` freshness guard, strict); a skipped row does not count towards
the statement rowcount. -/
def bulkUpsertStep (acc : SysStore × Nat) (r : SysRecord) : SysStore × Nat :=
  match acc.1 r.systemAddress with
  | none =>
      (fun a => if a = r.systemAddress then some (insertRowOfRecord r) else acc.1 a,
       acc.2 + 1)
  | some old =>
      if old.updatedAt < r.updatedAt then
        (fun a => if a = r.systemAddress then some (conflictUpdateRow old r) else acc.1 a,
         acc.2 + 1)
      else acc

/-- `bulk_upsert_systems` (`src/src/app/crud.py` lines 9-45).  Returns the new
table state and the rowcount.  Records are processed in list order (the
sequence of delivered records; batches of one correspond to successive calls). -/
def bulk_upsert_systems (db : SysStore) (records : List SysRecord) : SysStore × Nat :=
  records.foldl bulkUpsertStep (db, 0)

/-- Sentinel coordinate `999999.999` used when a coordinate is missing
(`src/src/app/crud.py` lines 233-235). -/
def sentinelCoord : ℚ := 999999999 / 1000

/-- The literal name given to a freshly created system whose message carried
no (truthy) name (`name if name else "Unknown"`, `crud.py` line 258). -/
def unknownName : Str := ['U', 'n', 'k', 'n', 'o', 'w', 'n']

/-- Python truthiness of an optional string: `None` and the empty string are
falsy. -/
def strTruthy : Option Str → Bool
  | some s => !s.isEmpty
  | none => false

/-- `create_or_update_system` (`src/src/app/crud.py` lines 202-270).  Missing
coordinates become the sentinel; `coords` is `ST_MakePoint(x, y, z)`; on update
the name is overwritten only when the incoming name is truthy (`if name:`),
all coordinate columns and `updated_at` are overwritten unconditionally, and
`requires_permit` is untouched; on create `requires_permit` takes the server
default `FALSE`. -/
def create_or_update_system (db : SysStore) (system_address : Int)
    (name : Option Str) (x y z : Option ℚ) (updated_at : Int) : SysStore :=
  let coord_x := x.getD sentinelCoord
  let coord_y := y.getD sentinelCoord
  let coord_z := z.getD sentinelCoord
  let pg_point := (coord_x, coord_y, coord_z)
  match db system_address with
  | some existing =>
      let newName := if strTruthy name then name.getD [] else existing.name
      fun a =>
        if a = system_address then
          some ⟨newName, coord_x, coord_y, coord_z, pg_point,
                existing.requiresPermit, updated_at⟩
        else db a
  | none =>
      let newName := if strTruthy name then name.getD [] else unknownName
      fun a =>
        if a = system_address then
          some ⟨newName, coord_x, coord_y, coord_z, pg_point, false, updated_at⟩
        else db a

/-- The `message` body of a system-bearing EDDN frame, restricted to the keys
`parse_and_update_system` reads: `SystemAddress`, `StarSystem`, `System`,
`StarPos` (`src/src/run_listener.py` lines 60, 81-84). -/
structure SysMsg where
  systemAddress : Option Int
  starSystem : Option Str
  system : Option Str
  starPos : Option (List ℚ)
deriving DecidableEq

/-- `message_body.get("StarSystem") or message_body.get("System")`
(`run_listener.py` line 81): Python `or` falls through on falsy values, so a
present-but-empty `StarSystem` also yields `System`. -/
def msgName (m : SysMsg) : Option Str :=
  match m.starSystem with
  | some s => if s.isEmpty then m.system else some s
  | none => m.system

/-- `(coords[0], coords[1], coords[2]) if coords and len(coords) == 3 else
(None, None, None)` (`run_listener.py` line 84). -/
def msgCoords (m : SysMsg) : Option ℚ × Option ℚ × Option ℚ :=
  match m.starPos with
  | some l => if l.length = 3 then (l[0]?, l[1]?, l[2]?) else (none, none, none)
  | none => (none, none, none)

/-- The body of `parse_and_update_system` past the `Route` branch
(`src/src/run_listener.py` lines 60, 71-97): skip when `SystemAddress` is
absent or falsy (`if not system_address:` — the integer 0 is falsy); skip when
the stored row is not strictly older than the message timestamp; otherwise
call `create_or_update_system`.  Returns the new store and the accepted flag. -/
def parseSystemBody (db : SysStore) (m : SysMsg) (ts : Int) : SysStore × Bool :=
  match m.systemAddress with
  | none => (db, false)
  | some addr =>
      if addr = 0 then (db, false)
      else
        match db addr with
        | some existing =>
            if ts ≤ existing.updatedAt then (db, false)
            else
              let c := msgCoords m
              (create_or_update_system db addr (msgName m) c.1 c.2.1 c.2.2 ts, true)
        | none =>
            let c := msgCoords m
            (create_or_update_system db addr (msgName m) c.1 c.2.1 c.2.2 ts, true)

/-- A system-bearing frame as handed to `parse_and_update_system`: either a
flat body, or a `NavRoute` message carrying a list of (flat) route items.  The
EDDN navroute payloads are one level deep, which the type reflects. -/
structure SysFrame where
  body : SysMsg
  route : Option (List SysMsg)

/-- `parse_and_update_system` (`src/src/run_listener.py` lines 55-97): the
`Route` branch recurses into each route item carrying a `SystemAddress`, and
the frame counts as accepted when any item was accepted; a flat body goes
through `parseSystemBody`. -/
def parse_and_update_system (db : SysStore) (fr : SysFrame) (ts : Int) :
    SysStore × Bool :=
  match fr.route with
  | some items =>
      let out := items.foldl
        (fun acc item =>
          match item.systemAddress with
          | some _ =>
              let r := parseSystemBody acc.1 item ts
              (r.1, acc.2 + (if r.2 then 1 else 0))
          | none => acc)
        (db, 0)
      (out.1, decide (0 < out.2))
  | none => parseSystemBody db fr.body ts

/-- A delivered system-update frame: a flat message body together with the
effective timestamp the schema router extracted for it. -/
structure SysDelivery where
  msg : SysMsg
  ts : Int
deriving DecidableEq

/-- Applying one delivered frame to the store via `parse_and_update_system`
(with no `Route` list — the code path of lines 75-97). -/
def applySysDelivery (db : SysStore) (f : SysDelivery) : SysStore :=
  (parse_and_update_system db ⟨f.msg, none⟩ f.ts).1

/-- The key under which a delivered frame writes: its `SystemAddress` when
present and truthy, otherwise none (the frame is a no-op). -/
def deliveryKey (f : SysDelivery) : Option Int :=
  match f.msg.systemAddress with
  | some a => if a = 0 then none else some a
  | none => none

/-- Row of the `stations` table (`src/src/app/models.py`, class `Station`).
`system_address` is nullable. -/
structure StationRow where
  marketId : Int
  name : Str
  systemAddress : Option Int
  prohibited : Option (List Str)
  updatedAt : Int
deriving DecidableEq

/-- The `stations` table, keyed by `market_id`. -/
abbrev StationStore : Type := Int → Option StationRow

/-- The `systems` rows as seen by `get_system_by_name` (`crud.py` line 58):
a name-to-address view, queried with `.first()`, i.e. the first match in
result order. -/
abbrev NamedSystems : Type := List (Str × Int)

/-- `get_system_by_name(db, name).system_address if parent else None`
(`src/src/app/crud.py` lines 106-108). -/
def lookupSystemAddress (systems : NamedSystems) (name : Str) : Option Int :=
  match systems.find? (fun p => p.1 = name) with
  | some p => some p.2
  | none => none

/-- Python truthiness of a nullable integer column: `None` and `0` are falsy. -/
def intTruthy : Option Int → Bool
  | some v => !(v = 0)
  | none => false

/-- `get_or_create_station` (`src/src/app/crud.py` lines 93-129).  On update,
`name`, `prohibited` and `updated_at` are overwritten; `system_address` is
written only when `not station.system_address and system_address` holds, i.e.
when the stored value is falsy (null or 0) and the freshly resolved address is
truthy.  On create, the resolved address (possibly null) is stored.  Returns
the new table state and the station row. -/
def get_or_create_station (db : StationStore) (systems : NamedSystems)
    (market_id : Int) (name : Str) (system_name : Str)
    (prohibited : Option (List Str)) (updated_at : Int) :
    StationStore × StationRow :=
  let system_address := lookupSystemAddress systems system_name
  match db market_id with
  | some station =>
      let newAddr :=
        if !(intTruthy station.systemAddress) && intTruthy system_address then
          system_address
        else station.systemAddress
      let st : StationRow := ⟨station.marketId, name, newAddr, prohibited, updated_at⟩
      (fun k => if k = market_id then some st else db k, st)
  | none =>
      let st : StationRow := ⟨market_id, name, system_address, prohibited, updated_at⟩
      (fun k => if k = market_id then some st else db k, st)

/-- One entry of the `commodities[]` list of a commodity message, restricted
to the keys `create_or_update_station_commodities` reads.  Numeric fields are
nullable. -/
structure CommodityData where
  name : Option Str
  buyPrice : Option Int
  sellPrice : Option Int
  demand : Option Int
  demandBracket : Option Int
  stock : Option Int
  stockBracket : Option Int
  meanPrice : Option Int
deriving DecidableEq

/-- One dictionary of the `upsert_data` list built by
`create_or_update_station_commodities` (`src/src/app/crud.py` lines 164-175). -/
structure ListingRecord where
  stationMarketId : Int
  commodityId : Int
  buyPrice : Int
  sellPrice : Int
  demand : Int
  demandBracket : Int
  stock : Int
  stockBracket : Int
  meanPrice : Int
  updatedAt : Int
deriving DecidableEq

/-- `int(data.get(k) or 0)`: `None` (and the falsy `0`) becomes `0`; any other
integer passes through unchanged — in particular a negative value stays
negative, nothing clamps it. -/
def pyIntOr0 : Option Int → Int
  | some v => if v = 0 then 0 else v
  | none => 0

/-- The `upsert_data` list built by `create_or_update_station_commodities`
(`src/src/app/crud.py` lines 153-175): entries without a truthy name are
skipped, the commodity id is resolved through the session map built by
`get_or_create_commodity` plus `db.flush()` (modelled as the map `idMap`;
entries whose id is missing or 0 are skipped — `if not commodity or not
commodity.id: continue`), and the numeric fields go through `int(... or 0)`. -/
def buildListingRecords (idMap : Str → Option Int) (market_id : Int)
    (commodities_data : List CommodityData) (timestamp : Int) :
    List ListingRecord :=
  commodities_data.filterMap (fun d =>
    match d.name with
    | none => none
    | some nm =>
        match idMap nm with
        | none => none
        | some i =>
            if i = 0 then none
            else
              some ⟨market_id, i, pyIntOr0 d.buyPrice, pyIntOr0 d.sellPrice,
                    pyIntOr0 d.demand, pyIntOr0 d.demandBracket, pyIntOr0 d.stock,
                    pyIntOr0 d.stockBracket, pyIntOr0 d.meanPrice, timestamp⟩)

/-- Code-point lexicographic strict order on strings, as Python compares
`str` values (`<`). -/
def lexLt : Str → Str → Bool
  | [], [] => false
  | [], _ :: _ => true
  | _ :: _, [] => false
  | a :: as, b :: bs => if a < b then true else if b < a then false else lexLt as bs

/-- Python `s.lower()`; on the ASCII range (the only range the repository's
data exercises) `Char.toLower` coincides with it. -/
def toLowerStr (s : Str) : Str := s.map Char.toLower

/-- Python `s.startswith(p)`: `startsWithStr s p` holds when `p` is an initial
segment of `s`. -/
def startsWithStr : Str → Str → Bool
  | _, [] => true
  | [], _ :: _ => false
  | a :: as, b :: bs => if a = b then startsWithStr as bs else false

/-- `SystemAutocomplete._is_sorted` (`src/src/app/autocomplete.py` lines
62-65): all consecutive pairs satisfy `names[i] <= names[i+1]` in raw string
order. -/
def isSortedRaw : List Str → Bool
  | [] => true
  | [_] => true
  | a :: b :: rest => !lexLt b a && isSortedRaw (b :: rest)

/-- The binary-search loop of `SystemAutocomplete.search`
(`src/src/app/autocomplete.py` lines 88-95): lower bound for `ql` among the
lower-cased names, on the half-open interval `[left, right)`.  The interval
shrinks by at least one per iteration, so any fuel `≥ right − left` makes the
recursion exact: at fuel 0 the interval is already empty and the loop would
exit with `left` anyway. -/
def bsearchGo (names : List Str) (ql : Str) : Nat → Nat → Nat → Nat
  | 0, left, _ => left
  | fuel + 1, left, right =>
      if left < right then
        if lexLt (toLowerStr (names.getD ((left + right) / 2) [])) ql then
          bsearchGo names ql fuel ((left + right) / 2 + 1) right
        else bsearchGo names ql fuel left ((left + right) / 2)
      else left

/-- The forward collection loop of `SystemAutocomplete.search`
(`src/src/app/autocomplete.py` lines 98-105): from index `i`, append names
while their lower-cased form starts with `ql`, stopping after a non-match or
once `limit` results have been appended (the limit test runs after the
append).  The index grows by one per iteration, so any fuel
`≥ names.length − i` makes the recursion exact: at fuel 0 the index is
already past the end and the loop would exit with `acc` anyway. -/
def collectMatches (names : List Str) (ql : Str) (limit : Nat) :
    Nat → Nat → List Str → List Str
  | 0, _, acc => acc
  | fuel + 1, i, acc =>
      if i < names.length then
        if startsWithStr (toLowerStr (names.getD i [])) ql then
          if limit ≤ (acc ++ [names.getD i []]).length then acc ++ [names.getD i []]
          else collectMatches names ql limit fuel (i + 1) (acc ++ [names.getD i []])
        else acc
      else acc

/-- `SystemAutocomplete.search` (`src/src/app/autocomplete.py` lines 67-107):
empty queries return `[]`; otherwise binary-search the first name whose
lower-cased form is `≥` the lower-cased query and scan forward. -/
def search (names : List Str) (query : Str) (limit : Nat) : List Str :=
  if query.isEmpty then []
  else
    collectMatches names (toLowerStr query) limit names.length
      (bsearchGo names (toLowerStr query) names.length 0 names.length) []

/-- A row of the `systems` table as the route planner reads it
(`src/scripts/plan_route.py`): key, name and Cartesian coordinates. -/
structure PSystem where
  system_address : Int
  name : Str
  x : ℚ
  y : ℚ
  z : ℚ
deriving DecidableEq

/-- The squared 3-D Euclidean distance between two systems.
`calculate_distance` (`plan_route.py` line 30-32) is its square root; every
comparison the planner makes on such square roots is embedded below as an
exact rational decision. -/
def sqDist (a b : PSystem) : ℚ :=
  (a.x - b.x) ^ 2 + (a.y - b.y) ^ 2 + (a.z - b.z) ^ 2

/-- `calculate_distance(a, b) <= r`, i.e. `√(sqDist a b) ≤ r` over the reals.
For `d ≥ 0`: `√d ≤ r ↔ 0 ≤ r ∧ d ≤ r²` (the square root is nonnegative, and
squaring is monotone on nonnegatives), which is the rational test below. -/
def distLE (a b : PSystem) (r : ℚ) : Bool :=
  decide (0 ≤ r) && decide (sqDist a b ≤ r ^ 2)

/-- Exact decision of `a ≤ q·√d` for rationals `a q` and `d ≥ 0`.
When `0 ≤ q` the right side is nonnegative, so the test is `a ≤ 0` or
`a² ≤ q²·d`; when `q < 0` the right side is nonpositive, so the test is
`a ≤ 0` and `q²·d ≤ a²`. -/
def leSqrtMul (a q d : ℚ) : Bool :=
  if 0 ≤ q then decide (a ≤ 0) || decide (a ^ 2 ≤ q ^ 2 * d)
  else decide (a ≤ 0) && decide (q ^ 2 * d ≤ a ^ 2)

/-- Exact decision of `q·√d ≤ a` (`d ≥ 0`), by symmetry. -/
def geSqrtMul (a q d : ℚ) : Bool := leSqrtMul (-a) (-q) d

/-- Exact decision of `√d₁ + √d₂ < t` for `d₁ d₂ ≥ 0`: impossible for
`t ≤ 0`; otherwise square once (`d₁ + d₂ + 2√(d₁d₂) < t²`, i.e.
`2√(d₁d₂) < m` with `m := t² − d₁ − d₂`) and once more. -/
def sumSqrtLt (d1 d2 t : ℚ) : Bool :=
  if t ≤ 0 then false
  else
    let m := t ^ 2 - d1 - d2
    decide (0 < m) && decide (4 * d1 * d2 < m ^ 2)

/-- Exact decision of `t < √d₁ + √d₂` for `d₁ d₂ ≥ 0`. -/
def sumSqrtGt (d1 d2 t : ℚ) : Bool :=
  if t < 0 then true
  else
    let m := t ^ 2 - d1 - d2
    decide (m < 0) || decide (m ^ 2 < 4 * d1 * d2)

/-- Exact decision of `|√d₁ − r| < |√d₂ − r|`, the comparison `score <
best_score` of `find_best_system_at_range` (`plan_route.py` lines 162-168)
with `score = abs(distance - max_jump_range)` and squared distances `d₁ d₂`.
Squaring, `|√d₁−r| < |√d₂−r| ↔ (√d₁−r)² < (√d₂−r)² ↔ d₁−d₂ < 2r(√d₁−√d₂)`;
for `d₁ < d₂` divide by `√d₁−√d₂ < 0` (giving `√d₁+√d₂ > 2r`), for `d₁ > d₂`
divide by `√d₁−√d₂ > 0` (giving `√d₁+√d₂ < 2r`); equal distances tie. -/
def scoreLt (d1 d2 r : ℚ) : Bool :=
  if d1 = d2 then false
  else if d1 < d2 then sumSqrtGt d1 d2 (2 * r)
  else sumSqrtLt d1 d2 (2 * r)

/-- The selection loop over `valid_candidates` (`plan_route.py` lines
158-168): running best starts at `None` (score `inf`, so the first candidate
always wins) and is replaced exactly when the strict score comparison holds. -/
def pickBest (r : ℚ) : List (PSystem × ℚ) → Option (PSystem × ℚ) → Option (PSystem × ℚ)
  | [], best => best
  | (c, d) :: rest, none => pickBest r rest (some (c, d))
  | (c, d) :: rest, some (b, bd) =>
      if scoreLt d bd r then pickBest r rest (some (c, d))
      else pickBest r rest (some (b, bd))

/-- Membership of a system in the axis-aligned bubble of half-side `radius`
around the projected target point (`calculate_target_coordinates` plus the
`between` filters, `plan_route.py` lines 68-86 and 126-141).  With
`d := sqDist c g`, the target is `cᵢ + qᵢ·√d` where `qᵢ = (gᵢ − cᵢ)·r/d`
(since `(gᵢ−cᵢ)/√d · r = (gᵢ−cᵢ)·r/d · √d`), so each `between` bound is an
exact `leSqrtMul`/`geSqrtMul` decision. -/
def inBubble (c g : PSystem) (r radius : ℚ) (s : PSystem) : Bool :=
  let d := sqDist c g
  let qx := (g.x - c.x) * r / d
  let qy := (g.y - c.y) * r / d
  let qz := (g.z - c.z) * r / d
  geSqrtMul (s.x - c.x + radius) qx d && leSqrtMul (s.x - c.x - radius) qx d &&
  (geSqrtMul (s.y - c.y + radius) qy d && leSqrtMul (s.y - c.y - radius) qy d) &&
  (geSqrtMul (s.z - c.z + radius) qz d && leSqrtMul (s.z - c.z - radius) qz d)

/-- The filter over bubble candidates (`plan_route.py` lines 147-155): drop
the current system, keep `(candidate, distance)` pairs within jump range
(distances carried as their squares). -/
def validCandidates (c : PSystem) (r : ℚ) (cands : List PSystem) :
    List (PSystem × ℚ) :=
  cands.filterMap (fun s =>
    if s.system_address = c.system_address then none
    else if distLE c s r then some (s, sqDist c s) else none)

/-- Bubble radii are multiples of 0.5 LY; we count them in half-light-year
units (`r2` half-units = `r2/2` LY), which is exact for the source's float
arithmetic (all values are small multiples of 0.5, exactly representable). -/
def radiusLY (r2 : Nat) : ℚ := (r2 : ℚ) / 2

/-- The bubble growth step (`plan_route.py` lines 173-184), in half-LY units:
`+0.5` when the box query returned more than 20 rows, `+1.0` when more than
5, else `+1.5`. -/
def bubbleStep (cnt : Nat) : Nat :=
  if 20 < cnt then 1 else if 5 < cnt then 2 else 3

/-- The expanding-bubble loop of `find_best_system_at_range` (`plan_route.py`
lines 122-187): while the radius is at most `max_bubble_radius = 10.0` LY
(20 half-units), query the box, filter, pick the best valid candidate and
return it with the radius used; otherwise grow the radius and retry; on
falling out of the loop return `(None, 10.0)`.  The radius grows by at least
one half-unit per iteration, so any fuel `≥ 21 − r2` makes the recursion
exact: at fuel 0 the radius is already past the cap and the loop would exit
with `(None, 10.0)` anyway. -/
def bubbleLoop (db : List PSystem) (c g : PSystem) (r : ℚ) :
    Nat → Nat → Option PSystem × ℚ
  | 0, _ => (none, 10)
  | fuel + 1, r2 =>
      if r2 ≤ 20 then
        match pickBest r (validCandidates c r (db.filter (inBubble c g r (radiusLY r2)))) none with
        | some p => (some p.1, radiusLY r2)
        | none =>
            bubbleLoop db c g r fuel
              (r2 + bubbleStep (db.filter (inBubble c g r (radiusLY r2))).length)
      else (none, 10)

/-- The adaptive starting radius (`plan_route.py` lines 102-120), in half-LY
units, from the previous hop's needed bubble size in LY: first hop 1.0;
`> 5.0 → 3.0`; `> 3.0 → 2.0`; `< 1.5 → 0.5`; else 1.0. -/
def initialBubbleR2 : Option ℚ → Nat
  | none => 2
  | some p => if 5 < p then 6 else if 3 < p then 4 else if p < 3 / 2 then 1 else 2

/-- `find_best_system_at_range` (`src/scripts/plan_route.py` lines 89-187). -/
def find_best_system_at_range (db : List PSystem) (c g : PSystem) (r : ℚ)
    (prev : Option ℚ) : Option PSystem × ℚ :=
  bubbleLoop db c g r 21 (initialBubbleR2 prev)

/-- `max_hops = 100` (`plan_route.py` line 332). -/
def MAX_HOPS : Nat := 100

/-- The multi-hop loop of `plan_route` (`plan_route.py` lines 335-368),
with the remaining hop budget as fuel.  Also returns the number of loop
iterations executed (each `while` entry counts one, as `hop_count += 1`
does).  Failure cases: no candidate found, candidate already visited, or
hop budget exhausted. -/
def planRouteLoop (db : List PSystem) (g : PSystem) (r : ℚ) :
    Nat → PSystem → List PSystem → List Int → Option ℚ →
    Option (List PSystem) × Nat
  | 0, _, _, _, _ => (none, 0)
  | fuel + 1, current, route, visited, prev =>
      if distLE current g r then (some (route ++ [g]), 1)
      else
        match find_best_system_at_range db current g r prev with
        | (none, _) => (none, 1)
        | (some best, bubble) =>
            if best.system_address ∈ visited then (none, 1)
            else
              let rec_ := planRouteLoop db g r fuel best (route ++ [best])
                (best.system_address :: visited) (some bubble)
              (rec_.1, rec_.2 + 1)

/-- `plan_route` (`src/scripts/plan_route.py` lines 308-368): direct jump if
the goal is within range, else the greedy multi-hop loop starting from
`route = [start]`, `visited = {start.system_address}`, no previous bubble
size. -/
def plan_route (db : List PSystem) (s g : PSystem) (r : ℚ) :
    Option (List PSystem) :=
  if distLE s g r then some [s, g]
  else (planRouteLoop db g r MAX_HOPS s [s] [s.system_address] none).1

/-- The number of multi-hop loop iterations `plan_route` executes (0 for a
direct jump). -/
def planRouteHops (db : List PSystem) (s g : PSystem) (r : ℚ) : Nat :=
  if distLE s g r then 0
  else (planRouteLoop db g r MAX_HOPS s [s] [s.system_address] none).2

/-- The largest `updated_at` among the delivered records `r0 :: rs`. -/
def listMaxTs (r0 : SysRecord) (rs : List SysRecord) : Int :=
  rs.foldl (fun m r => max m r.updatedAt) r0.updatedAt

/-- The first-delivered record among `r0 :: rs` attaining the running maximum
of `updated_at` (the record whose non-guarded columns survive a strict
last-writer-wins fold). -/
def winnerRec (r0 : SysRecord) (rs : List SysRecord) : SysRecord :=
  rs.foldl (fun w r => if w.updatedAt < r.updatedAt then r else w) r0

/-- Effect of one `bulk_upsert_systems` record on an existing row with its
key: overwrite through `conflictUpdateRow` exactly when strictly newer. -/
def bulkRowStep (row : SysRow) (r : SysRecord) : SysRow :=
  if row.updatedAt < r.updatedAt then conflictUpdateRow row r else row

/-- The row `create_or_update_system` writes for a delivered frame, given the
name fallback and the `requires_permit` value dictated by the update/create
branch. -/
def deliveryRow (f : SysDelivery) (fallbackName : Str) (permit : Bool) : SysRow :=
  ⟨if strTruthy (msgName f.msg) then (msgName f.msg).getD [] else fallbackName,
   (msgCoords f.msg).1.getD sentinelCoord,
   (msgCoords f.msg).2.1.getD sentinelCoord,
   (msgCoords f.msg).2.2.getD sentinelCoord,
   ((msgCoords f.msg).1.getD sentinelCoord,
    (msgCoords f.msg).2.1.getD sentinelCoord,
    (msgCoords f.msg).2.2.getD sentinelCoord),
   permit, f.ts⟩

/-- Pointwise effect of one delivered frame on the row under its key:
the freshness guard of `parse_and_update_system` followed by the overwrite
performed by `create_or_update_system`. -/
def deliveryRowStep (cur : Option SysRow) (f : SysDelivery) : Option SysRow :=
  match cur with
  | some row =>
      if f.ts ≤ row.updatedAt then some row
      else some (deliveryRow f row.name row.requiresPermit)
  | none => some (deliveryRow f unknownName false)

/-- Concrete record: address 1, timestamp 1, `requires_permit` false. -/
def recA : SysRecord := ⟨1, ['S', 'o', 'l'], 0, 0, 0, (0, 0, 0), false, 1⟩

/-- Concrete record: address 1, timestamp 2, `requires_permit` true. -/
def recB : SysRecord := ⟨1, ['S', 'o', 'l', 'B'], 1, 2, 3, (1, 2, 3), true, 2⟩

/-- Concrete delivered frame: address 1, timestamp 2, no name, no coords. -/
def delNoName : SysDelivery := ⟨⟨some 1, none, none, none⟩, 2⟩

/-- Concrete delivered frame: address 1, timestamp 1, named, no coords. -/
def delNamed : SysDelivery := ⟨⟨some 1, some ['X'], none, none⟩, 1⟩

/-- Concrete delivered frame: address 1, timestamp 1, named, with coords. -/
def delW1 : SysDelivery := ⟨⟨some 1, some ['A'], none, some [0, 0, 0]⟩, 1⟩

/-- Concrete delivered frame: address 2, timestamp 2, named, with coords. -/
def delW2 : SysDelivery := ⟨⟨some 2, some ['B'], none, some [1, 1, 1]⟩, 2⟩

/-- Concrete planner system at the origin. -/
def pOrigin : PSystem := ⟨1, ['c'], 0, 0, 0⟩

/-- Concrete planner system 100 LY away on the x axis. -/
def pFar : PSystem := ⟨2, ['g'], 100, 0, 0⟩

/-- Concrete planner system 9.8 LY along the x axis (within the radius-1.0
bubble around the first-hop target at x = 10 for range 10). -/
def pNear : PSystem := ⟨3, ['n'], 49 / 5, 0, 0⟩

/-- Concrete planner system at distance 5 from the origin. -/
def pClose : PSystem := ⟨4, ['e'], 3, 4, 0⟩

/-- Name `Alpha`. -/
def alphaS : Str := ['A', 'l', 'p', 'h', 'a']

/-- Name `Alpha Centauri`. -/
def alphaCS : Str := ['A', 'l', 'p', 'h', 'a', ' ', 'C', 'e', 'n', 't', 'a', 'u', 'r', 'i']

/-- Name `Beta`. -/
def betaS : Str := ['B', 'e', 't', 'a']

/-- Concrete commodity entry whose `buyPrice` is the negative integer −5. -/
def negCommodity : CommodityData :=
  ⟨some ['t'], some (-5), some 10, some 1, some 1, some 1, some 1, some 1⟩

/-- Concrete station row whose stored `system_address` is the non-null,
falsy value 0. -/
def stZero : StationRow := ⟨5, ['s'], some 0, none, 0⟩


/-- Concrete stored row with real (non-sentinel) coordinates. -/
def rowReal : SysRow := ⟨['X'], 7, 8, 9, (7, 8, 9), false, 1⟩

/-- Concrete store holding `rowReal` at address 1. -/
def dbReal : SysStore := fun a => if a = 1 then some rowReal else none

/-- Concrete message for address 1 with a name and no `StarPos`. -/
def msgNoPos : SysMsg := ⟨some 1, some ['X'], none, none⟩

/-! ### Lemmas for the freshness-guarded upsert (C1, C2) -/

theorem listMaxTs_cons (r0 r : SysRecord) (rs : List SysRecord) :
    listMaxTs r0 (r :: rs) =
      listMaxTs (if r0.updatedAt < r.updatedAt then r else r0) rs := by
  simp only [listMaxTs, List.foldl_cons]
  congr 1
  split
  · exact max_eq_right (le_of_lt (by assumption))
  · exact max_eq_left (le_of_not_lt (by assumption))

theorem winnerRec_cons (r0 r : SysRecord) (rs : List SysRecord) :
    winnerRec r0 (r :: rs) =
      winnerRec (if r0.updatedAt < r.updatedAt then r else r0) rs := rfl

theorem seed_le_listMaxTs (r0 : SysRecord) (rs : List SysRecord) :
    r0.updatedAt ≤ listMaxTs r0 rs := by
  induction rs generalizing r0 with
  | nil => simp [listMaxTs]
  | cons r rs ih =>
      rw [listMaxTs_cons]
      have h1 : r0.updatedAt ≤ (if r0.updatedAt < r.updatedAt then r else r0).updatedAt := by
        split <;> omega
      exact le_trans h1 (ih _)

theorem winnerRec_updatedAt (rs : List SysRecord) :
    ∀ r0 : SysRecord, (winnerRec r0 rs).updatedAt = listMaxTs r0 rs := by
  induction rs with
  | nil => intro r0; simp [winnerRec, listMaxTs]
  | cons r rs ih =>
      intro r0
      rw [winnerRec_cons, listMaxTs_cons]
      exact ih _

theorem find?_winnerRec (rs : List SysRecord) :
    ∀ r0 : SysRecord,
      (r0 :: rs).find? (fun r => r.updatedAt = listMaxTs r0 rs) =
        some (winnerRec r0 rs) := by
  induction rs with
  | nil =>
      intro r0
      simp [listMaxTs, winnerRec]
  | cons r rs ih =>
      intro r0
      rw [winnerRec_cons, listMaxTs_cons]
      by_cases h : r0.updatedAt < r.updatedAt
      · rw [if_pos h]
        have hle : r.updatedAt ≤ listMaxTs r rs := seed_le_listMaxTs r rs
        have hne : ¬ r0.updatedAt = listMaxTs r rs := by omega
        rw [List.find?_cons_of_neg _ (by simpa using hne)]
        exact ih r
      · rw [if_neg h]
        have h2 := ih r0
        by_cases hp : r0.updatedAt = listMaxTs r0 rs
        · rw [List.find?_cons_of_pos _ (by simpa using hp)]
          rw [List.find?_cons_of_pos _ (by simpa using hp)] at h2
          exact h2
        · rw [List.find?_cons_of_neg _ (by simpa using hp)]
          have hr0le : r0.updatedAt ≤ listMaxTs r0 rs := seed_le_listMaxTs r0 rs
          have hnr : ¬ r.updatedAt = listMaxTs r0 rs := by omega
          rw [List.find?_cons_of_neg _ (by simpa using hnr)]
          rw [List.find?_cons_of_neg _ (by simpa using hp)] at h2
          exact h2

theorem bulk_fold_existing (rs : List SysRecord) :
    ∀ (acc : SysStore × Nat) (addr : Int) (row : SysRow),
      (∀ r ∈ rs, r.systemAddress = addr) → acc.1 addr = some row →
      (rs.foldl bulkUpsertStep acc).1 addr = some (rs.foldl bulkRowStep row) := by
  induction rs with
  | nil => intro acc addr row _ h; simpa using h
  | cons r rs ih =>
      intro acc addr row hkeys hrow
      have hkey : r.systemAddress = addr := hkeys r (by simp)
      simp only [List.foldl_cons]
      by_cases hlt : row.updatedAt < r.updatedAt
      · have hstep : (bulkUpsertStep acc r).1 addr = some (bulkRowStep row r) := by
          simp [bulkUpsertStep, bulkRowStep, hkey, hrow, hlt]
        rw [show bulkRowStep row r = conflictUpdateRow row r from by
              simp [bulkRowStep, hlt]] at hstep ⊢
        exact ih _ addr _ (fun x hx => hkeys x (by simp [hx])) hstep
      · have hstep : (bulkUpsertStep acc r).1 addr = some (bulkRowStep row r) := by
          simp [bulkUpsertStep, bulkRowStep, hkey, hrow, hlt]
        rw [show bulkRowStep row r = row from by simp [bulkRowStep, hlt]] at hstep ⊢
        exact ih _ addr _ (fun x hx => hkeys x (by simp [hx])) hstep

theorem bulkRowStep_fold (rs : List SysRecord) :
    ∀ (w : SysRecord) (p : Bool),
      rs.foldl bulkRowStep ⟨w.name, w.x, w.y, w.z, w.coords, p, w.updatedAt⟩ =
        ⟨(winnerRec w rs).name, (winnerRec w rs).x, (winnerRec w rs).y,
         (winnerRec w rs).z, (winnerRec w rs).coords, p,
         (winnerRec w rs).updatedAt⟩ := by
  induction rs with
  | nil => intro w p; simp [winnerRec]
  | cons r rs ih =>
      intro w p
      rw [winnerRec_cons]
      simp only [List.foldl_cons]
      by_cases hlt : w.updatedAt < r.updatedAt
      · rw [show bulkRowStep ⟨w.name, w.x, w.y, w.z, w.coords, p, w.updatedAt⟩ r =
              ⟨r.name, r.x, r.y, r.z, r.coords, p, r.updatedAt⟩ from by
            simp [bulkRowStep, conflictUpdateRow, hlt]]
        rw [if_pos hlt]
        exact ih r p
      · rw [show bulkRowStep ⟨w.name, w.x, w.y, w.z, w.coords, p, w.updatedAt⟩ r =
              ⟨w.name, w.x, w.y, w.z, w.coords, p, w.updatedAt⟩ from by
            simp [bulkRowStep, hlt]]
        rw [if_neg hlt]
        exact ih w p

/-- C1 (amended): for a nonempty sequence of delivered upsert records for one
`system_address` applied to a store with no row under that key, the final
row's `updated_at` is the maximum of the delivered `updated_at`s; `name`,
`x`, `y`, `z` and `coords` are those of the FIRST-delivered record bearing
that maximum (`find?` picks it); `requires_permit` is that of the first
delivered record (the one that inserted the row), because the conflict-update
clause of `bulk_upsert_systems` does not set it. -/
theorem c1_last_writer_wins (r0 : SysRecord) (rs : List SysRecord)
    (db : SysStore) (addr : Int)
    (hkeys : ∀ r ∈ r0 :: rs, r.systemAddress = addr)
    (hempty : db addr = none) :
    (r0 :: rs).find? (fun r => r.updatedAt = listMaxTs r0 rs) =
        some (winnerRec r0 rs) ∧
    (bulk_upsert_systems db (r0 :: rs)).1 addr =
      some ⟨(winnerRec r0 rs).name, (winnerRec r0 rs).x, (winnerRec r0 rs).y,
            (winnerRec r0 rs).z, (winnerRec r0 rs).coords, r0.requiresPermit,
            listMaxTs r0 rs⟩ := by
  refine ⟨find?_winnerRec rs r0, ?_⟩
  have hkey0 : r0.systemAddress = addr := hkeys r0 (by simp)
  have hstep : (bulkUpsertStep (db, 0) r0).1 addr = some (insertRowOfRecord r0) := by
    simp [bulkUpsertStep, hkey0, hempty]
  have hfold := bulk_fold_existing rs (bulkUpsertStep (db, 0) r0) addr
    (insertRowOfRecord r0) (fun x hx => hkeys x (by simp [hx])) hstep
  have hmain : (bulk_upsert_systems db (r0 :: rs)).1 addr =
      some (rs.foldl bulkRowStep (insertRowOfRecord r0)) := by
    simpa [bulk_upsert_systems] using hfold
  rw [hmain, show insertRowOfRecord r0 =
        (⟨r0.name, r0.x, r0.y, r0.z, r0.coords, r0.requiresPermit, r0.updatedAt⟩ : SysRow)
      from rfl,
      bulkRowStep_fold rs r0 r0.requiresPermit, winnerRec_updatedAt rs r0]

/-- Witness for `c1_last_writer_wins` at the concrete records `recA`, `recB`. -/
theorem c1_witness :
    ((∀ r ∈ recA :: [recB], r.systemAddress = 1) ∧ sysEmpty 1 = none) ∧
    ((recA :: [recB]).find? (fun r => r.updatedAt = listMaxTs recA [recB]) =
        some (winnerRec recA [recB]) ∧
     (bulk_upsert_systems sysEmpty (recA :: [recB])).1 1 =
       some ⟨(winnerRec recA [recB]).name, (winnerRec recA [recB]).x,
             (winnerRec recA [recB]).y, (winnerRec recA [recB]).z,
             (winnerRec recA [recB]).coords, recA.requiresPermit,
             listMaxTs recA [recB]⟩) :=
  ⟨⟨by decide, rfl⟩, c1_last_writer_wins recA [recB] sysEmpty 1 (by decide) rfl⟩

/-- Counterexample to C1 as stated: deliver `recA` (timestamp 1, permit
false) then `recB` (timestamp 2, permit true) for address 1.  The final row
carries `recB`'s name, coordinates and timestamp, but its `requires_permit`
is `false`, not the `true` of the record bearing the maximal timestamp. -/
theorem c1_counterexample :
    (bulk_upsert_systems sysEmpty [recA, recB]).1 1 =
      some ⟨recB.name, recB.x, recB.y, recB.z, recB.coords, false, recB.updatedAt⟩ ∧
    recB.requiresPermit = true ∧ recA.updatedAt < recB.updatedAt := by
  refine ⟨?_, by decide, by decide⟩
  decide

/-- C2: an upsert of a record strictly fresher than the stored row (or
inserting a new row) reports rowcount 1; an immediate replay of the identical
record reports rowcount 0 and leaves the store untouched. -/
theorem c2_replay_idempotent (db : SysStore) (r : SysRecord)
    (hfresh : db r.systemAddress = none ∨
      ∃ old, db r.systemAddress = some old ∧ old.updatedAt < r.updatedAt) :
    (bulk_upsert_systems db [r]).2 = 1 ∧
    bulk_upsert_systems (bulk_upsert_systems db [r]).1 [r] =
      ((bulk_upsert_systems db [r]).1, 0) := by
  rcases hfresh with h | ⟨old, hold, hlt⟩
  · constructor
    · simp [bulk_upsert_systems, bulkUpsertStep, h]
    · simp [bulk_upsert_systems, bulkUpsertStep, h, insertRowOfRecord]
  · constructor
    · simp [bulk_upsert_systems, bulkUpsertStep, hold, hlt]
    · simp [bulk_upsert_systems, bulkUpsertStep, hold, hlt, conflictUpdateRow]

/-- Witness for `c2_replay_idempotent`: apply `recA` to the empty store. -/
theorem c2_witness :
    (sysEmpty recA.systemAddress = none ∨
      ∃ old, sysEmpty recA.systemAddress = some old ∧
        old.updatedAt < recA.updatedAt) ∧
    ((bulk_upsert_systems sysEmpty [recA]).2 = 1 ∧
     bulk_upsert_systems (bulk_upsert_systems sysEmpty [recA]).1 [recA] =
       ((bulk_upsert_systems sysEmpty [recA]).1, 0)) :=
  ⟨Or.inl rfl, c2_replay_idempotent sysEmpty recA (Or.inl rfl)⟩

/-- C7 (amended): for every commodity entry whose name resolves to a nonzero
commodity id, the upserted record's numeric fields are `int(field or 0)` of
the entry's fields — `null` (and falsy `0`) becomes `0`, any other value
passes through unclamped (in particular, a negative input stays negative). -/
theorem c7_numeric_coercion (idMap : Str → Option Int) (mid : Int)
    (ds : List CommodityData) (ts : Int) (d : CommodityData) (nm : Str) (i : Int)
    (hd : d ∈ ds) (hnm : d.name = some nm) (hid : idMap nm = some i)
    (hiz : i ≠ 0) :
    (⟨mid, i, pyIntOr0 d.buyPrice, pyIntOr0 d.sellPrice, pyIntOr0 d.demand,
      pyIntOr0 d.demandBracket, pyIntOr0 d.stock, pyIntOr0 d.stockBracket,
      pyIntOr0 d.meanPrice, ts⟩ : ListingRecord) ∈
        buildListingRecords idMap mid ds ts ∧
    pyIntOr0 none = 0 ∧ (∀ v : Int, pyIntOr0 (some v) = v) := by
  refine ⟨?_, rfl, fun v => by
    by_cases h : v = 0
    · subst h; rfl
    · simp [pyIntOr0, h]⟩
  unfold buildListingRecords
  refine List.mem_filterMap.mpr ⟨d, hd, ?_⟩
  rw [hnm]
  simp [hid, hiz]

/-- Witness for `c7_numeric_coercion` at the concrete entry `negCommodity`. -/
theorem c7_witness :
    (negCommodity ∈ [negCommodity] ∧ negCommodity.name = some ['t'] ∧
      (fun s => if s = ['t'] then some (1 : Int) else none) ['t'] = some 1 ∧
      (1 : Int) ≠ 0) ∧
    ((⟨9, 1, pyIntOr0 negCommodity.buyPrice, pyIntOr0 negCommodity.sellPrice,
       pyIntOr0 negCommodity.demand, pyIntOr0 negCommodity.demandBracket,
       pyIntOr0 negCommodity.stock, pyIntOr0 negCommodity.stockBracket,
       pyIntOr0 negCommodity.meanPrice, 3⟩ : ListingRecord) ∈
        buildListingRecords (fun s => if s = ['t'] then some 1 else none) 9
          [negCommodity] 3 ∧
     pyIntOr0 none = 0 ∧ (∀ v : Int, pyIntOr0 (some v) = v)) :=
  ⟨⟨by decide, by decide, by decide, by decide⟩,
   c7_numeric_coercion (fun s => if s = ['t'] then some 1 else none) 9
     [negCommodity] 3 negCommodity ['t'] 1 (by decide) (by decide) (by decide)
     (by decide)⟩

/-- Counterexample to C7 as stated: the entry `negCommodity` carries
`buyPrice = -5`; the record built for it stores `buy_price = -5`, a negative
integer, so the ingestor does not coerce the field to a non-negative value. -/
theorem c7_counterexample :
    buildListingRecords (fun s => if s = ['t'] then some 1 else none) 9
        [negCommodity] 3 =
      [⟨9, 1, -5, 10, 1, 1, 1, 1, 1, 3⟩] ∧
    ¬ ((0 : Int) ≤ -5) := by
  constructor
  · decide
  · decide

/-- C9: an accepted system update whose message has no well-formed `StarPos`
(missing, or not a 3-element vector) overwrites `x`, `y`, `z` and `coords`
of the existing row with the sentinel `999999.999`, even when the stored row
held real coordinates. -/
theorem c9_sentinel_overwrite (db : SysStore) (m : SysMsg) (ts : Int)
    (addr : Int) (old : SysRow)
    (haddr : m.systemAddress = some addr) (hnz : addr ≠ 0)
    (hold : db addr = some old) (hts : old.updatedAt < ts)
    (hpos : ∀ l, m.starPos = some l → l.length ≠ 3) :
    ∃ row, (parse_and_update_system db ⟨m, none⟩ ts).1 addr = some row ∧
      row.x = sentinelCoord ∧ row.y = sentinelCoord ∧ row.z = sentinelCoord ∧
      row.coords = (sentinelCoord, sentinelCoord, sentinelCoord) := by
  have hc : msgCoords m = (none, none, none) := by
    unfold msgCoords
    cases hsp : m.starPos with
    | none => rfl
    | some l => simp [hpos l hsp]
  have hguard : ¬ ts ≤ old.updatedAt := by omega
  refine ⟨⟨if strTruthy (msgName m) then (msgName m).getD [] else old.name,
           sentinelCoord, sentinelCoord, sentinelCoord,
           (sentinelCoord, sentinelCoord, sentinelCoord),
           old.requiresPermit, ts⟩, ?_, rfl, rfl, rfl, rfl⟩
  simp only [parse_and_update_system, parseSystemBody, haddr, hc,
    create_or_update_system, hold, if_neg hnz, if_neg hguard]
  simp

/-- Witness for `c9_sentinel_overwrite`: a stored row at address 1 with real
coordinates, updated by a timestamp-2 message with no `StarPos`. -/
theorem c9_witness :
    (msgNoPos.systemAddress = some 1 ∧ (1 : Int) ≠ 0 ∧
     dbReal 1 = some rowReal ∧ rowReal.updatedAt < 2) ∧
    (∃ row, (parse_and_update_system dbReal ⟨msgNoPos, none⟩ 2).1 1 = some row ∧
      row.x = sentinelCoord ∧ row.y = sentinelCoord ∧ row.z = sentinelCoord ∧
      row.coords = (sentinelCoord, sentinelCoord, sentinelCoord)) :=
  ⟨⟨rfl, by decide, by decide, by decide⟩,
   c9_sentinel_overwrite dbReal msgNoPos 2 1 rowReal rfl (by decide)
     (by decide) (by decide) (fun l h => by simp [msgNoPos] at h)⟩

/-- C10 (amended): a station whose stored `system_address` is truthy (non-null
and nonzero) never has it changed by `get_or_create_station`; the guard
`not station.system_address and system_address` writes only over a falsy
stored value (null or the integer 0). -/
theorem c10_station_address_stable (db : StationStore) (systems : NamedSystems)
    (m : Int) (name sysName : Str) (proh : Option (List Str)) (ts : Int)
    (st : StationRow) (v : Int) (hst : db m = some st)
    (hv : st.systemAddress = some v) (hnz : v ≠ 0) :
    ∃ st2, (get_or_create_station db systems m name sysName proh ts).1 m =
        some st2 ∧ st2.systemAddress = some v := by
  have htruthy : intTruthy st.systemAddress = true := by
    simp [intTruthy, hv, hnz]
  refine ⟨⟨st.marketId, name, st.systemAddress, proh, ts⟩, ?_, by simp [hv]⟩
  simp [get_or_create_station, hst, htruthy]

/-- Witness for `c10_station_address_stable`: stored address 7 survives a
message resolving the system name to address 42. -/
theorem c10_witness :
    ((fun k => if k = (5 : Int) then
        some (⟨5, ['s'], some 7, none, 0⟩ : StationRow) else none) 5 =
          some ⟨5, ['s'], some 7, none, 0⟩ ∧
     (⟨5, ['s'], some 7, none, 0⟩ : StationRow).systemAddress = some 7 ∧
     (7 : Int) ≠ 0) ∧
    (∃ st2,
      (get_or_create_station
        (fun k => if k = (5 : Int) then
          some (⟨5, ['s'], some 7, none, 0⟩ : StationRow) else none)
        [(['S'], 42)] 5 ['s'] ['S'] none 1).1 5 = some st2 ∧
      st2.systemAddress = some 7) :=
  ⟨⟨by simp, rfl, by decide⟩,
   c10_station_address_stable
     (fun k => if k = (5 : Int) then
       some (⟨5, ['s'], some 7, none, 0⟩ : StationRow) else none)
     [(['S'], 42)] 5 ['s'] ['S'] none 1 ⟨5, ['s'], some 7, none, 0⟩ 7
     (by simp) rfl (by decide)⟩

/-- Counterexample to C10 as stated: the stored `system_address` of `stZero`
is `some 0` — non-null — yet a commodity update whose `systemName` resolves
to address 42 changes it to `some 42`: the guard tests Python truthiness,
not null-ness, and the integer 0 is falsy. -/
theorem c10_counterexample :
    stZero.systemAddress = some 0 ∧
    (get_or_create_station (fun k => if k = (5 : Int) then some stZero else none)
        [(['S'], 42)] 5 ['s'] ['S'] none 1).2.systemAddress = some 42 := by
  constructor
  · decide
  · decide

/-! ### Route-planner termination and bubble schedule (C8, C6) -/

theorem planRouteLoop_hops_le (db : List PSystem) (g : PSystem) (r : ℚ) :
    ∀ (fuel : Nat) (current : PSystem) (route : List PSystem)
      (visited : List Int) (prev : Option ℚ),
      (planRouteLoop db g r fuel current route visited prev).2 ≤ fuel := by
  intro fuel
  induction fuel with
  | zero => intro current route visited prev; simp [planRouteLoop]
  | succ n ih =>
      intro current route visited prev
      simp only [planRouteLoop]
      split
      · simp
      · split
        · simp
        · split
          · simp
          · dsimp only
            exact Nat.succ_le_succ (ih _ _ _ _)

/-- C8: the multi-hop loop of `plan_route` executes at most `MAX_HOPS = 100`
iterations for every store, start, goal and jump range, and the planner always
returns — either a route or failure. -/
theorem c8_planner_terminates (db : List PSystem) (s g : PSystem) (r : ℚ) :
    planRouteHops db s g r ≤ MAX_HOPS ∧
    (plan_route db s g r = none ∨ ∃ ps, plan_route db s g r = some ps) := by
  constructor
  · unfold planRouteHops
    split
    · simp [MAX_HOPS]
    · exact planRouteLoop_hops_le db g r MAX_HOPS s [s] [s.system_address] none
  · cases h : plan_route db s g r with
    | none => exact Or.inl rfl
    | some ps => exact Or.inr ⟨ps, rfl⟩

/-- C6 (amended): the candidate search of each hop tries bubble radii that
are multiples of 0.5 LY, capped at 10.0 LY (20 half-units): the starting
radius is 1.0 LY on the first hop, else 3.0 / 2.0 / 0.5 / 1.0 LY according as
the previous hop's needed radius was `> 5.0` / `> 3.0` / `< 1.5` / otherwise;
when a radius yields no valid candidate the radius grows by 0.5, 1.0 or
1.5 LY according as the box query returned more than 20, more than 5, or at
most 5 rows; the first radius with a valid candidate is returned with the
best candidate; beyond 10.0 LY the search fails with `(None, 10.0)`. -/
theorem c6_bubble_schedule (db : List PSystem) (c g : PSystem) (r : ℚ)
    (prev : Option ℚ) (fuel r2 : Nat) (p : ℚ) :
    find_best_system_at_range db c g r prev =
        bubbleLoop db c g r 21 (initialBubbleR2 prev) ∧
    initialBubbleR2 none = 2 ∧
    (5 < p → initialBubbleR2 (some p) = 6) ∧
    (¬ 5 < p → 3 < p → initialBubbleR2 (some p) = 4) ∧
    (¬ 5 < p → ¬ 3 < p → p < 3 / 2 → initialBubbleR2 (some p) = 1) ∧
    (¬ 5 < p → ¬ 3 < p → ¬ p < 3 / 2 → initialBubbleR2 (some p) = 2) ∧
    (r2 ≤ 20 →
      validCandidates c r (db.filter (inBubble c g r (radiusLY r2))) = [] →
      bubbleLoop db c g r (fuel + 1) r2 =
        bubbleLoop db c g r fuel
          (r2 + bubbleStep (db.filter (inBubble c g r (radiusLY r2))).length)) ∧
    (r2 ≤ 20 → ∀ b d,
      pickBest r (validCandidates c r (db.filter (inBubble c g r (radiusLY r2)))) none =
          some (b, d) →
      bubbleLoop db c g r (fuel + 1) r2 = (some b, radiusLY r2)) ∧
    (20 < r2 → bubbleLoop db c g r (fuel + 1) r2 = (none, 10)) := by
  refine ⟨rfl, rfl, ?_, ?_, ?_, ?_, ?_, ?_, ?_⟩
  · intro h; simp [initialBubbleR2, h]
  · intro h1 h2; simp [initialBubbleR2, h1, h2]
  · intro h1 h2 h3; simp [initialBubbleR2, h1, h2, h3]
  · intro h1 h2 h3; simp [initialBubbleR2, h1, h2, h3]
  · intro h20 hvalid
    conv_lhs => rw [bubbleLoop]
    rw [if_pos h20, hvalid]
    rfl
  · intro h20 b d hpick
    conv_lhs => rw [bubbleLoop]
    rw [if_pos h20, hpick]
  · intro h
    rw [bubbleLoop, if_neg (by omega)]

/-- Witness for `c6_bubble_schedule` at concrete inputs. -/
theorem c6_witness :
    find_best_system_at_range [] pOrigin pFar 10 none =
        bubbleLoop [] pOrigin pFar 10 21 (initialBubbleR2 none) ∧
    initialBubbleR2 none = 2 ∧
    (5 < (7 : ℚ) → initialBubbleR2 (some 7) = 6) ∧
    (¬ 5 < (7 : ℚ) → 3 < (7 : ℚ) → initialBubbleR2 (some 7) = 4) ∧
    (¬ 5 < (7 : ℚ) → ¬ 3 < (7 : ℚ) → (7 : ℚ) < 3 / 2 →
      initialBubbleR2 (some 7) = 1) ∧
    (¬ 5 < (7 : ℚ) → ¬ 3 < (7 : ℚ) → ¬ (7 : ℚ) < 3 / 2 →
      initialBubbleR2 (some 7) = 2) ∧
    (3 ≤ 20 →
      validCandidates pOrigin 10 ([].filter (inBubble pOrigin pFar 10 (radiusLY 3))) = [] →
      bubbleLoop [] pOrigin pFar 10 (5 + 1) 3 =
        bubbleLoop [] pOrigin pFar 10 5
          (3 + bubbleStep ([].filter (inBubble pOrigin pFar 10 (radiusLY 3))).length)) ∧
    (3 ≤ 20 → ∀ b d,
      pickBest 10 (validCandidates pOrigin 10
          ([].filter (inBubble pOrigin pFar 10 (radiusLY 3)))) none = some (b, d) →
      bubbleLoop [] pOrigin pFar 10 (5 + 1) 3 = (some b, radiusLY 3)) ∧
    (20 < 3 → bubbleLoop [] pOrigin pFar 10 (5 + 1) 3 = (none, 10)) :=
  c6_bubble_schedule [] pOrigin pFar 10 none 5 3 7

unseal Rat.add Rat.sub Rat.mul Rat.inv in
/-- Counterexample to C6 as stated: on the first hop (no previous index) the
search does not start at the smallest integer radius `≥ 5`; it starts at
1.0 LY and, in this concrete store, succeeds there: the candidate search
returns the system found in the radius-1.0 bubble, a radius smaller than 5. -/
theorem c6_counterexample :
    find_best_system_at_range [pOrigin, pNear, pFar] pOrigin pFar 10 none =
      (some pNear, 1) ∧
    initialBubbleR2 none = 2 ∧ radiusLY 2 = 1 ∧ ¬ (5 : ℚ) ≤ 1 := by
  refine ⟨by decide, rfl, by norm_num [radiusLY], by norm_num⟩

/-! ### Reorder safety of system deliveries (C3) -/

theorem deliveryRow_updatedAt (f : SysDelivery) (n : Str) (p : Bool) :
    (deliveryRow f n p).updatedAt = f.ts := rfl

theorem deliveryRow_requiresPermit (f : SysDelivery) (n : Str) (p : Bool) :
    (deliveryRow f n p).requiresPermit = p := rfl

theorem applySysDelivery_factor (db : SysStore) (f : SysDelivery) :
    applySysDelivery db f = fun a =>
      if deliveryKey f = some a then deliveryRowStep (db a) f else db a := by
  funext a
  unfold applySysDelivery parse_and_update_system parseSystemBody deliveryKey
    deliveryRowStep deliveryRow
  cases haddr : f.msg.systemAddress with
  | none => simp
  | some addr =>
      by_cases h0 : addr = 0
      · simp [h0]
      · simp only [if_neg h0]
        by_cases ha : addr = a
        · subst ha
          cases hdb : db addr with
          | some existing =>
              by_cases hts : f.ts ≤ existing.updatedAt
              · simp [hdb, hts]
              · simp [hdb, hts, create_or_update_system]
          | none => simp [hdb, create_or_update_system]
        · have hne : ¬ ((some addr : Option Int) = some a) := by simp [ha]
          have ha2 : ¬ a = addr := fun hc => ha hc.symm
          cases hdb : db addr with
          | some existing =>
              by_cases hts : f.ts ≤ existing.updatedAt
              · simp [hdb, hts, hne]
              · simp [hdb, hts, hne, create_or_update_system, ha2]
          | none => simp [hdb, hne, create_or_update_system, ha2]

theorem deliveryRow_name_irrel (f : SysDelivery) (n1 n2 : Str) (p : Bool)
    (hn : strTruthy (msgName f.msg) = true) :
    deliveryRow f n1 p = deliveryRow f n2 p := by
  simp [deliveryRow, hn]

theorem deliveryRowStep_comm (cur : Option SysRow) (f1 f2 : SysDelivery)
    (hn1 : strTruthy (msgName f1.msg) = true)
    (hn2 : strTruthy (msgName f2.msg) = true)
    (hne : f1.ts ≠ f2.ts) :
    deliveryRowStep (deliveryRowStep cur f1) f2 =
      deliveryRowStep (deliveryRowStep cur f2) f1 := by
  rcases lt_trichotomy f1.ts f2.ts with h | h | h
  · cases cur with
    | none =>
        show deliveryRowStep (some (deliveryRow f1 unknownName false)) f2 =
          deliveryRowStep (some (deliveryRow f2 unknownName false)) f1
        simp only [deliveryRowStep, deliveryRow_updatedAt, deliveryRow_requiresPermit]
        rw [if_neg (by omega), if_pos (by omega)]
        exact congrArg some (deliveryRow_name_irrel f2 _ _ _ hn2)
    | some row0 =>
        by_cases h1 : f1.ts ≤ row0.updatedAt
        · have e1 : deliveryRowStep (some row0) f1 = some row0 := by
            simp [deliveryRowStep, h1]
          rw [e1]
          by_cases hg2 : f2.ts ≤ row0.updatedAt
          · have e2 : deliveryRowStep (some row0) f2 = some row0 := by
              simp [deliveryRowStep, hg2]
            rw [e2, e1]
          · have e2 : deliveryRowStep (some row0) f2 =
                some (deliveryRow f2 row0.name row0.requiresPermit) := by
              simp [deliveryRowStep, hg2]
            rw [e2]
            simp only [deliveryRowStep, deliveryRow_updatedAt]
            rw [if_pos (by omega)]
        · have hg2 : ¬ f2.ts ≤ row0.updatedAt := by omega
          have e1 : deliveryRowStep (some row0) f1 =
              some (deliveryRow f1 row0.name row0.requiresPermit) := by
            simp [deliveryRowStep, h1]
          have e2 : deliveryRowStep (some row0) f2 =
              some (deliveryRow f2 row0.name row0.requiresPermit) := by
            simp [deliveryRowStep, hg2]
          rw [e1, e2]
          simp only [deliveryRowStep, deliveryRow_updatedAt, deliveryRow_requiresPermit]
          rw [if_neg (by omega), if_pos (by omega)]
          exact congrArg some (deliveryRow_name_irrel f2 _ _ _ hn2)
  · exact absurd h hne
  · cases cur with
    | none =>
        show deliveryRowStep (some (deliveryRow f1 unknownName false)) f2 =
          deliveryRowStep (some (deliveryRow f2 unknownName false)) f1
        simp only [deliveryRowStep, deliveryRow_updatedAt, deliveryRow_requiresPermit]
        rw [if_pos (by omega), if_neg (by omega)]
        exact (congrArg some (deliveryRow_name_irrel f1 _ _ _ hn1)).symm
    | some row0 =>
        by_cases hg2 : f2.ts ≤ row0.updatedAt
        · have e2 : deliveryRowStep (some row0) f2 = some row0 := by
            simp [deliveryRowStep, hg2]
          rw [e2]
          by_cases h1 : f1.ts ≤ row0.updatedAt
          · have e1 : deliveryRowStep (some row0) f1 = some row0 := by
              simp [deliveryRowStep, h1]
            rw [e1, e2]
          · have e1 : deliveryRowStep (some row0) f1 =
                some (deliveryRow f1 row0.name row0.requiresPermit) := by
              simp [deliveryRowStep, h1]
            rw [e1]
            simp only [deliveryRowStep, deliveryRow_updatedAt]
            rw [if_pos (by omega)]
        · have h1 : ¬ f1.ts ≤ row0.updatedAt := by omega
          have e1 : deliveryRowStep (some row0) f1 =
              some (deliveryRow f1 row0.name row0.requiresPermit) := by
            simp [deliveryRowStep, h1]
          have e2 : deliveryRowStep (some row0) f2 =
              some (deliveryRow f2 row0.name row0.requiresPermit) := by
            simp [deliveryRowStep, hg2]
          rw [e1, e2]
          simp only [deliveryRowStep, deliveryRow_updatedAt, deliveryRow_requiresPermit]
          rw [if_pos (by omega), if_neg (by omega)]
          exact (congrArg some (deliveryRow_name_irrel f1 _ _ _ hn1)).symm

theorem applySysDelivery_comm (f1 f2 : SysDelivery)
    (hn1 : strTruthy (msgName f1.msg) = true)
    (hn2 : strTruthy (msgName f2.msg) = true)
    (hts : deliveryKey f1 = deliveryKey f2 → f1.ts ≠ f2.ts) (db : SysStore) :
    applySysDelivery (applySysDelivery db f1) f2 =
      applySysDelivery (applySysDelivery db f2) f1 := by
  rw [applySysDelivery_factor db f1, applySysDelivery_factor db f2,
    applySysDelivery_factor, applySysDelivery_factor]
  funext a
  by_cases h2 : deliveryKey f2 = some a <;> by_cases h1 : deliveryKey f1 = some a
  · have hne := hts (h1.trans h2.symm)
    simp only [h1, h2, if_pos rfl]
    exact deliveryRowStep_comm (db a) f1 f2 hn1 hn2 hne
  · simp [h1, h2]
  · simp [h1, h2]
  · simp [h1, h2]

/-- C3 (amended): for every batch of delivered system-update frames in which
frames for the same key carry distinct timestamps AND every frame carries a
truthy system name, processing the batch in any permutation order yields the
same final store state (every column of every row). -/
theorem c3_reorder_safety (l1 l2 : List SysDelivery) (s : SysStore)
    (hperm : l1.Perm l2)
    (hts : l1.Pairwise (fun f g => deliveryKey f = deliveryKey g → f.ts ≠ g.ts))
    (hnames : ∀ f ∈ l1, strTruthy (msgName f.msg) = true) :
    l1.foldl applySysDelivery s = l2.foldl applySysDelivery s := by
  refine hperm.foldl_eq' ?_ s
  intro x hx y hy z
  by_cases hxy : x = y
  · subst hxy; rfl
  · have hsymm : Symmetric (fun f g : SysDelivery =>
        deliveryKey f = deliveryKey g → f.ts ≠ g.ts) :=
      fun a b hab hk he => hab hk.symm he.symm
    exact applySysDelivery_comm x y (hnames x hx) (hnames y hy)
      (hts.forall hsymm hx hy hxy) z

/-- Witness for `c3_reorder_safety`: two named frames for distinct keys in
both orders. -/
theorem c3_witness :
    ([delW1, delW2].Perm [delW2, delW1] ∧
     List.Pairwise (fun f g => deliveryKey f = deliveryKey g → f.ts ≠ g.ts)
       [delW1, delW2] ∧
     (∀ f ∈ [delW1, delW2], strTruthy (msgName f.msg) = true)) ∧
    [delW1, delW2].foldl applySysDelivery sysEmpty =
      [delW2, delW1].foldl applySysDelivery sysEmpty :=
  ⟨⟨List.Perm.swap delW2 delW1 [], by decide, by decide⟩,
   c3_reorder_safety [delW1, delW2] [delW2, delW1] sysEmpty
     (List.Perm.swap delW2 delW1 []) (by decide) (by decide)⟩

unseal Rat.add Rat.sub Rat.mul Rat.inv in
/-- Counterexample to C3 as stated: the frames `delNamed` (key 1, timestamp 1,
named) and `delNoName` (key 1, timestamp 2, no name) have distinct timestamps
for their common key, yet the two delivery orders disagree on the stored row:
name-first ends with the name, name-second ends with the literal `Unknown`
(the nameless newer frame creates the row and the older named frame is then
stale), so the final state is not permutation-independent. -/
theorem c3_counterexample :
    List.Pairwise (fun f g => deliveryKey f = deliveryKey g → f.ts ≠ g.ts)
      [delNamed, delNoName] ∧
    [delNamed, delNoName].Perm [delNoName, delNamed] ∧
    (List.foldl applySysDelivery sysEmpty [delNamed, delNoName]) 1 ≠
      (List.foldl applySysDelivery sysEmpty [delNoName, delNamed]) 1 :=
  ⟨by decide, List.Perm.swap delNoName delNamed [], by decide⟩

/-! ### Route validity (C4) -/

theorem pickBest_mem (r : ℚ) :
    ∀ (l : List (PSystem × ℚ)) (best q : Option (PSystem × ℚ)),
      pickBest r l best = q → (∃ p, q = some p ∧ p ∈ l) ∨ q = best := by
  intro l
  induction l with
  | nil =>
      intro best q h
      subst h
      exact Or.inr rfl
  | cons hd tl ih =>
      intro best q h
      rcases hd with ⟨c, d⟩
      cases best with
      | none =>
          rcases ih (some (c, d)) q (by simpa [pickBest] using h) with hmem | heq
          · rcases hmem with ⟨p, hq, hp⟩
            exact Or.inl ⟨p, hq, List.mem_cons_of_mem _ hp⟩
          · exact Or.inl ⟨(c, d), heq, List.mem_cons_self _ _⟩
      | some b0 =>
          rcases b0 with ⟨b, bd⟩
          by_cases hs : scoreLt d bd r = true
          · rcases ih (some (c, d)) q (by simpa [pickBest, hs] using h) with hmem | heq
            · rcases hmem with ⟨p, hq, hp⟩
              exact Or.inl ⟨p, hq, List.mem_cons_of_mem _ hp⟩
            · exact Or.inl ⟨(c, d), heq, List.mem_cons_self _ _⟩
          · rcases ih (some (b, bd)) q (by simpa [pickBest, hs] using h) with hmem | heq
            · rcases hmem with ⟨p, hq, hp⟩
              exact Or.inl ⟨p, hq, List.mem_cons_of_mem _ hp⟩
            · exact Or.inr heq

theorem validCandidates_mem (c : PSystem) (r : ℚ) (cands : List PSystem)
    (s : PSystem) (d : ℚ) (h : (s, d) ∈ validCandidates c r cands) :
    s.system_address ≠ c.system_address ∧ distLE c s r = true := by
  rcases List.mem_filterMap.mp h with ⟨a, _, ha⟩
  by_cases h1 : a.system_address = c.system_address
  · simp [h1] at ha
  · by_cases h2 : distLE c a r = true
    · simp [h1, h2] at ha
      rcases ha with ⟨rfl, rfl⟩
      exact ⟨h1, h2⟩
    · simp [h1, h2] at ha

theorem bubbleLoop_some (db : List PSystem) (c g : PSystem) (r : ℚ) :
    ∀ (fuel r2 : Nat) (b : PSystem) (bub : ℚ),
      bubbleLoop db c g r fuel r2 = (some b, bub) →
      b.system_address ≠ c.system_address ∧ distLE c b r = true := by
  intro fuel
  induction fuel with
  | zero => intro r2 b bub h; simp [bubbleLoop] at h
  | succ n ih =>
      intro r2 b bub h
      rw [bubbleLoop] at h
      by_cases h20 : r2 ≤ 20
      · rw [if_pos h20] at h
        cases hp : pickBest r
            (validCandidates c r (db.filter (inBubble c g r (radiusLY r2)))) none with
        | some p =>
            rw [hp] at h
            rcases p with ⟨pb, pd⟩
            have hb : pb = b := by
              have := congrArg Prod.fst h
              simpa using this
            subst hb
            rcases pickBest_mem r _ none _ hp with ⟨p, hq, hmem⟩ | habs
            · obtain rfl : p = (pb, pd) := by
                injection hq with h1
                exact h1.symm
              exact validCandidates_mem c r _ _ _ hmem
            · exact absurd habs (by simp)
        | none =>
            rw [hp] at h
            exact ih _ b bub h
      · rw [if_neg h20] at h
        simp at h

theorem distLE_elim (a b : PSystem) (r : ℚ) (h : distLE a b r = true) :
    0 ≤ r ∧ sqDist a b ≤ r ^ 2 := by
  simpa [distLE] using h

theorem sqDist_self (a : PSystem) : sqDist a a = 0 := by
  simp [sqDist]

theorem distLE_diag (x y g' : PSystem) (r : ℚ) (h : distLE x y r = true) :
    distLE g' g' r = true := by
  have h1 := distLE_elim x y r h
  have h2 : (0 : ℚ) ≤ r ^ 2 := sq_nonneg r
  simp [distLE, sqDist_self, h1.1, h2]

theorem distLE_sqrt (a b : PSystem) (r : ℚ) (h : distLE a b r = true) :
    Real.sqrt ((sqDist a b : ℚ) : ℝ) ≤ (r : ℝ) := by
  obtain ⟨hr, hd⟩ := distLE_elim a b r h
  have h1 : ((sqDist a b : ℚ) : ℝ) ≤ ((r : ℚ) : ℝ) ^ 2 := by exact_mod_cast hd
  have h2 := Real.sqrt_le_sqrt h1
  rwa [Real.sqrt_sq (by exact_mod_cast hr)] at h2

theorem findBest_valid (db : List PSystem) (c g : PSystem) (r : ℚ)
    (prev : Option ℚ) (b : PSystem) (bub : ℚ)
    (h : find_best_system_at_range db c g r prev = (some b, bub)) :
    b.system_address ≠ c.system_address ∧ distLE c b r = true :=
  bubbleLoop_some db c g r 21 _ b bub h

theorem planRouteLoop_spec (db : List PSystem) (g : PSystem) (r : ℚ) :
    ∀ (fuel : Nat) (current : PSystem) (route : List PSystem)
      (visited : List Int) (prev : Option ℚ) (ps : List PSystem),
      (planRouteLoop db g r fuel current route visited prev).1 = some ps →
      route ≠ [] →
      route.getLast? = some current →
      List.Chain' (fun a b => distLE a b r = true) route →
      (route.map PSystem.system_address).Nodup →
      (∀ p ∈ route, p.system_address ∈ visited) →
      (∀ p ∈ route.dropLast, distLE p g r = false) →
      current ≠ g →
      ps.head? = route.head? ∧ ps.getLast? = some g ∧
        List.Chain' (fun a b => distLE a b r = true) ps ∧ ps.Nodup := by
  intro fuel
  induction fuel with
  | zero =>
      intro current route visited prev ps hps
      simp [planRouteLoop] at hps
  | succ n ih =>
      intro current route visited prev ps hps hne hlast hchain hnodup hvis hfail hcg
      rw [planRouteLoop] at hps
      by_cases hd : distLE current g r = true
      · rw [if_pos hd] at hps
        obtain rfl : ps = route ++ [g] := by simpa using hps.symm
        have hroute_decomp := List.dropLast_append_getLast? current hlast
        refine ⟨?_, ?_, ?_, ?_⟩
        · cases route with
          | nil => exact absurd rfl hne
          | cons a t => simp
        · simp
        · rw [List.chain'_append]
          refine ⟨hchain, List.chain'_singleton _, ?_⟩
          intro x hx y hy
          rw [hlast] at hx
          simp at hx hy
          subst hx; subst hy
          exact hd
        · rw [List.nodup_append]
          refine ⟨List.Nodup.of_map _ hnodup, List.nodup_singleton _, ?_⟩
          intro x hx hxg
          simp at hxg
          rw [hxg] at hx
          rw [← hroute_decomp] at hx
          rcases List.mem_append.mp hx with hx1 | hx2
          · have hfalse := hfail g hx1
            have htrue := distLE_diag current g g r hd
            rw [hfalse] at htrue
            exact Bool.false_ne_true htrue
          · simp at hx2
            exact hcg hx2.symm
      · rw [if_neg hd] at hps
        have hdfalse : distLE current g r = false := by
          simpa using hd
        cases hfb : find_best_system_at_range db current g r prev with
        | mk ob bub =>
          rw [hfb] at hps
          cases ob with
          | none => simp at hps
          | some best =>
              dsimp only at hps
              by_cases hvisb : best.system_address ∈ visited
              · rw [if_pos hvisb] at hps
                simp at hps
              · rw [if_neg hvisb] at hps
                have hrec : (planRouteLoop db g r n best (route ++ [best])
                    (best.system_address :: visited) (some bub)).1 = some ps := hps
                have hvalid := findBest_valid db current g r prev best bub hfb
                have hbestg : best ≠ g := by
                  intro he
                  rw [he] at hvalid
                  rw [hvalid.2] at hdfalse
                  simp at hdfalse
                have hroute_decomp := List.dropLast_append_getLast? current hlast
                obtain ⟨hh, hl2, hc2, hn2⟩ :=
                  ih best (route ++ [best]) (best.system_address :: visited)
                    (some bub) ps hrec
                    (by simp)
                    (by simp)
                    (by
                      rw [List.chain'_append]
                      refine ⟨hchain, List.chain'_singleton _, ?_⟩
                      intro x hx y hy
                      rw [hlast] at hx
                      simp at hx hy
                      subst hx; subst hy
                      exact hvalid.2)
                    (by
                      rw [List.map_append, List.nodup_append]
                      refine ⟨hnodup, by simp, ?_⟩
                      intro x hx hxb
                      simp at hxb
                      subst hxb
                      rcases List.mem_map.mp hx with ⟨p, hp, hpa⟩
                      exact hvisb (hpa ▸ hvis p hp))
                    (by
                      intro p hp
                      rcases List.mem_append.mp hp with h1 | h2
                      · exact List.mem_cons_of_mem _ (hvis p h1)
                      · simp at h2
                        subst h2
                        exact List.mem_cons_self _ _)
                    (by
                      rw [List.dropLast_concat]
                      intro p hp
                      rw [← hroute_decomp] at hp
                      rcases List.mem_append.mp hp with h1 | h2
                      · exact hfail p h1
                      · simp at h2
                        subst h2
                        exact hdfalse)
                    hbestg
                refine ⟨?_, hl2, hc2, hn2⟩
                rw [hh]
                cases route with
                | nil => exact absurd rfl hne
                | cons a t => simp

/-- C4 (amended): for every successful `plan_route(S, G, R)` result
`[p0, ..., pn]` with `S ≠ G`: `p0 = S`, `pn = G`, the 3-D Euclidean distance
between consecutive systems is at most `R`, and no system appears twice.
(For `S = G` the code returns `[S, S]`, which repeats `S`.) -/
theorem c4_route_validity (db : List PSystem) (s g : PSystem) (r : ℚ)
    (ps : List PSystem) (hne : s ≠ g)
    (hps : plan_route db s g r = some ps) :
    ps.head? = some s ∧ ps.getLast? = some g ∧
    List.Chain' (fun a b => Real.sqrt ((sqDist a b : ℚ) : ℝ) ≤ (r : ℝ)) ps ∧
    ps.Nodup := by
  unfold plan_route at hps
  by_cases hdir : distLE s g r = true
  · rw [if_pos hdir] at hps
    obtain rfl : ps = [s, g] := by simpa using hps.symm
    refine ⟨rfl, rfl, ?_, by simp [hne]⟩
    simp [List.chain'_cons, distLE_sqrt s g r hdir]
  · rw [if_neg hdir] at hps
    obtain ⟨hh, hl, hc, hn⟩ :=
      planRouteLoop_spec db g r MAX_HOPS s [s] [s.system_address] none ps hps
        (by simp) (by simp) (by simp) (by simp) (by simp) (by simp) hne
    refine ⟨by simpa using hh, hl, ?_, hn⟩
    exact hc.imp (fun a b hab => distLE_sqrt a b r hab)

unseal Rat.add Rat.sub Rat.mul Rat.inv in
/-- Witness for `c4_route_validity`: a direct jump between two distinct
systems 5 LY apart with range 10. -/
theorem c4_witness :
    (pOrigin ≠ pClose ∧
     plan_route [pOrigin, pClose] pOrigin pClose 10 = some [pOrigin, pClose]) ∧
    ([pOrigin, pClose].head? = some pOrigin ∧
     [pOrigin, pClose].getLast? = some pClose ∧
     List.Chain' (fun a b => Real.sqrt ((sqDist a b : ℚ) : ℝ) ≤ ((10 : ℚ) : ℝ))
       [pOrigin, pClose] ∧
     [pOrigin, pClose].Nodup) :=
  ⟨⟨by decide, by decide⟩,
   c4_route_validity [pOrigin, pClose] pOrigin pClose 10 [pOrigin, pClose]
     (by decide) (by decide)⟩

unseal Rat.add Rat.sub Rat.mul Rat.inv in
/-- Counterexample to C4 as stated: `plan_route(S, S, 10)` succeeds with the
direct-jump branch and returns `[S, S]`, in which the system `S` appears
twice. -/
theorem c4_counterexample :
    plan_route [pOrigin] pOrigin pOrigin 10 = some [pOrigin, pOrigin] ∧
    ¬ ([pOrigin, pOrigin] : List PSystem).Nodup := by
  refine ⟨by decide, by decide⟩

/-! ### Name-index soundness (C5) -/

theorem lexLt_cons (x y : Char) (xs ys : Str) :
    lexLt (x :: xs) (y :: ys) =
      if x < y then true else if y < x then false else lexLt xs ys := rfl

theorem lexLt_irrefl : ∀ s : Str, lexLt s s = false
  | [] => rfl
  | a :: as => by
      rw [lexLt_cons, if_neg (lt_irrefl a), if_neg (lt_irrefl a)]
      exact lexLt_irrefl as

theorem lexLt_trans : ∀ {a b c : Str},
    lexLt a b = true → lexLt b c = true → lexLt a c = true
  | [], _ :: _, _ :: _, _, _ => rfl
  | [], [], c, h1, _ => by simp [lexLt] at h1
  | [], _ :: _, [], _, h2 => by simp [lexLt] at h2
  | _ :: _, [], _, h1, _ => by simp [lexLt] at h1
  | _ :: _, _ :: _, [], _, h2 => by simp [lexLt] at h2
  | x :: xs, y :: ys, z :: zs, h1, h2 => by
      rw [lexLt_cons] at h1 h2 ⊢
      by_cases hxy : x < y
      · by_cases hyz : y < z
        · rw [if_pos (lt_trans hxy hyz)]
        · rw [if_neg hyz] at h2
          by_cases hzy : z < y
          · simp [hzy] at h2
          · have hyz2 : y = z := le_antisymm (le_of_not_lt hzy) (le_of_not_lt hyz)
            rw [if_pos (hyz2 ▸ hxy)]
      · rw [if_neg hxy] at h1
        by_cases hyx : y < x
        · simp [hyx] at h1
        · rw [if_neg hyx] at h1
          have hxy2 : x = y := le_antisymm (le_of_not_lt hyx) (le_of_not_lt hxy)
          subst hxy2
          by_cases hyz : x < z
          · rw [if_pos hyz]
          · rw [if_neg hyz] at h2 ⊢
            by_cases hzy : z < x
            · simp [hzy] at h2
            · rw [if_neg hzy] at h2 ⊢
              exact lexLt_trans h1 h2

theorem lexLt_total : ∀ a b : Str, lexLt a b = false → a = b ∨ lexLt b a = true
  | [], [], _ => Or.inl rfl
  | [], _ :: _, h => by simp [lexLt] at h
  | _ :: _, [], _ => Or.inr rfl
  | x :: xs, y :: ys, h => by
      rw [lexLt_cons] at h
      by_cases hxy : x < y
      · simp [hxy] at h
      · rw [if_neg hxy] at h
        by_cases hyx : y < x
        · exact Or.inr (by rw [lexLt_cons, if_pos hyx])
        · rw [if_neg hyx] at h
          have hxy2 : x = y := le_antisymm (le_of_not_lt hyx) (le_of_not_lt hxy)
          subst hxy2
          rcases lexLt_total xs ys h with h3 | h3
          · exact Or.inl (by rw [h3])
          · refine Or.inr ?_
            rw [lexLt_cons, if_neg hyx, if_neg hxy]
            exact h3

theorem lexLe_trans {a b c : Str} (h1 : lexLt b a = false) (h2 : lexLt c b = false) :
    lexLt c a = false := by
  by_contra hc
  have hc2 : lexLt c a = true := by simpa using hc
  rcases lexLt_total c b h2 with rfl | h3
  · rw [hc2] at h1; simp at h1
  · rw [lexLt_trans h3 hc2] at h1
    simp at h1

theorem lexLt_of_le_of_lt {m i q : Str} (hlt : lexLt m q = true)
    (hle : lexLt m i = false) : lexLt i q = true := by
  rcases lexLt_total m i hle with rfl | h3
  · exact hlt
  · exact lexLt_trans h3 hlt

theorem startsWith_not_lt : ∀ (p s : Str), startsWithStr s p = true → lexLt s p = false
  | [], [], _ => rfl
  | [], _ :: _, _ => rfl
  | _ :: _, [], h => by simp [startsWithStr] at h
  | b :: bs, a :: as, h => by
      have hab : a = b ∧ startsWithStr as bs = true := by
        by_cases hab : a = b
        · refine ⟨hab, ?_⟩
          rw [startsWithStr, if_pos hab] at h
          exact h
        · rw [startsWithStr, if_neg hab] at h
          exact absurd h (by simp)
      rcases hab with ⟨rfl, h2⟩
      rw [lexLt_cons, if_neg (lt_irrefl a), if_neg (lt_irrefl a)]
      exact startsWith_not_lt bs as h2

theorem startsWith_sandwich : ∀ (ql s t : Str),
    lexLt s ql = false → lexLt t s = false → startsWithStr t ql = true →
    startsWithStr s ql = true
  | [], s, _, _, _, _ => by cases s <;> rfl
  | c :: cs, [], t, h1, _, _ => by simp [lexLt] at h1
  | c :: cs, x :: xs, [], _, _, h3 => by simp [startsWithStr] at h3
  | c :: cs, x :: xs, a :: ts, h1, h2, h3 => by
      have hac : a = c ∧ startsWithStr ts cs = true := by
        by_cases hac : a = c
        · refine ⟨hac, ?_⟩
          rw [startsWithStr, if_pos hac] at h3
          exact h3
        · rw [startsWithStr, if_neg hac] at h3
          exact absurd h3 (by simp)
      rcases hac with ⟨hac2, h3c⟩
      rw [hac2] at h2
      rw [lexLt_cons] at h1 h2
      by_cases hxc : x < c
      · simp [hxc] at h1
      · rw [if_neg hxc] at h1
        by_cases hcx : c < x
        · simp [hcx] at h2
        · rw [if_neg hcx] at h1
          rw [if_neg hcx, if_neg hxc] at h2
          have hxc2 : x = c := le_antisymm (le_of_not_lt hcx) (le_of_not_lt hxc)
          rw [startsWithStr, if_pos hxc2]
          exact startsWith_sandwich cs xs ts h1 h2 h3c

theorem bsearchGo_spec (names : List Str) (ql : Str)
    (hsort : ∀ i j, i ≤ j → j < names.length →
      lexLt (toLowerStr (names.getD j [])) (toLowerStr (names.getD i [])) = false) :
    ∀ (fuel left right : Nat),
      right ≤ names.length → left ≤ right → right - left ≤ fuel →
      (∀ i, i < left → lexLt (toLowerStr (names.getD i [])) ql = true) →
      (∀ i, right ≤ i → i < names.length →
        lexLt (toLowerStr (names.getD i [])) ql = false) →
      left ≤ bsearchGo names ql fuel left right ∧
      bsearchGo names ql fuel left right ≤ right ∧
      (∀ i, i < bsearchGo names ql fuel left right →
        lexLt (toLowerStr (names.getD i [])) ql = true) ∧
      (∀ i, bsearchGo names ql fuel left right ≤ i → i < names.length →
        lexLt (toLowerStr (names.getD i [])) ql = false) := by
  intro fuel
  induction fuel with
  | zero =>
      intro left right hr hlr hf hlow hhigh
      have heq : left = right := by omega
      subst heq
      exact ⟨le_refl _, le_refl _, hlow, hhigh⟩
  | succ n ih =>
      intro left right hr hlr hf hlow hhigh
      rw [bsearchGo]
      by_cases hltr : left < right
      · rw [if_pos hltr]
        have hmid1 : left ≤ (left + right) / 2 := by omega
        have hmid2 : (left + right) / 2 < right := by omega
        by_cases hcmp : lexLt (toLowerStr (names.getD ((left + right) / 2) [])) ql = true
        · rw [if_pos hcmp]
          have hlow2 : ∀ i, i < (left + right) / 2 + 1 →
              lexLt (toLowerStr (names.getD i [])) ql = true := by
            intro i hi
            by_cases hil : i < left
            · exact hlow i hil
            · have hs := hsort i ((left + right) / 2) (by omega) (by omega)
              exact lexLt_of_le_of_lt hcmp hs
          obtain ⟨ha, hb, hc, hd2⟩ :=
            ih ((left + right) / 2 + 1) right hr (by omega) (by omega) hlow2 hhigh
          exact ⟨by omega, hb, hc, hd2⟩
        · rw [if_neg hcmp]
          have hcmp2 : lexLt (toLowerStr (names.getD ((left + right) / 2) [])) ql
              = false := by simpa using hcmp
          have hhigh2 : ∀ i, (left + right) / 2 ≤ i → i < names.length →
              lexLt (toLowerStr (names.getD i [])) ql = false := by
            intro i hmi hi
            have hs := hsort ((left + right) / 2) i (by omega) hi
            exact lexLe_trans hcmp2 hs
          obtain ⟨ha, hb, hc, hd2⟩ :=
            ih left ((left + right) / 2) (by omega) (by omega) (by omega) hlow hhigh2
          exact ⟨ha, by omega, hc, hd2⟩
      · rw [if_neg hltr]
        have heq : left = right := by omega
        exact ⟨le_refl _, by omega, hlow, fun i hi hil => hhigh i (by omega) hil⟩

theorem collectMatches_acc_sub (names : List Str) (ql : Str) (limit : Nat) :
    ∀ (fuel i : Nat) (acc : List Str) (x : Str), x ∈ acc →
      x ∈ collectMatches names ql limit fuel i acc := by
  intro fuel
  induction fuel with
  | zero => intro i acc x hx; simpa [collectMatches] using hx
  | succ n ih =>
      intro i acc x hx
      rw [collectMatches]
      by_cases hi : i < names.length
      · rw [if_pos hi]
        by_cases hm : startsWithStr (toLowerStr (names.getD i [])) ql = true
        · rw [if_pos hm]
          by_cases hl : limit ≤ (acc ++ [names.getD i []]).length
          · rw [if_pos hl]
            exact List.mem_append_left _ hx
          · rw [if_neg hl]
            exact ih (i + 1) _ x (List.mem_append_left _ hx)
        · rw [if_neg hm]; exact hx
      · rw [if_neg hi]; exact hx

theorem collectMatches_sound (names : List Str) (ql : Str) (limit : Nat) :
    ∀ (fuel i : Nat) (acc : List Str) (x : Str),
      x ∈ collectMatches names ql limit fuel i acc →
      x ∈ acc ∨ ∃ j, i ≤ j ∧ j < names.length ∧ x = names.getD j [] ∧
        startsWithStr (toLowerStr x) ql = true := by
  intro fuel
  induction fuel with
  | zero => intro i acc x hx; exact Or.inl (by simpa [collectMatches] using hx)
  | succ n ih =>
      intro i acc x hx
      rw [collectMatches] at hx
      by_cases hi : i < names.length
      · rw [if_pos hi] at hx
        by_cases hm : startsWithStr (toLowerStr (names.getD i [])) ql = true
        · rw [if_pos hm] at hx
          by_cases hl : limit ≤ (acc ++ [names.getD i []]).length
          · rw [if_pos hl] at hx
            rcases List.mem_append.mp hx with h1 | h2
            · exact Or.inl h1
            · have h2b : x = names.getD i [] := List.mem_singleton.mp h2
              exact Or.inr ⟨i, le_refl i, hi, h2b, h2b ▸ hm⟩
          · rw [if_neg hl] at hx
            rcases ih (i + 1) _ x hx with h1 | ⟨j, hj1, hj2, hj3, hj4⟩
            · rcases List.mem_append.mp h1 with h2 | h3
              · exact Or.inl h2
              · have h3b : x = names.getD i [] := List.mem_singleton.mp h3
                exact Or.inr ⟨i, le_refl i, hi, h3b, h3b ▸ hm⟩
            · exact Or.inr ⟨j, by omega, hj2, hj3, hj4⟩
        · rw [if_neg hm] at hx
          exact Or.inl hx
      · rw [if_neg hi] at hx
        exact Or.inl hx

theorem collectMatches_complete (names : List Str) (ql : Str) (limit : Nat) :
    ∀ (fuel i : Nat) (acc : List Str) (tgt : Nat),
      i ≤ tgt → tgt < names.length → names.length - i ≤ fuel →
      (∀ k, i ≤ k → k ≤ tgt →
        startsWithStr (toLowerStr (names.getD k [])) ql = true) →
      acc.length + (tgt - i) + 1 ≤ limit →
      names.getD tgt [] ∈ collectMatches names ql limit fuel i acc := by
  intro fuel
  induction fuel with
  | zero => intro i acc tgt h1 h2 h3 _ _; omega
  | succ n ih =>
      intro i acc tgt h1 h2 h3 hmatch hlim
      have hi : i < names.length := by omega
      rw [collectMatches, if_pos hi,
        if_pos (hmatch i (le_refl i) h1)]
      by_cases heq : i = tgt
      · subst heq
        by_cases hl : limit ≤ (acc ++ [names.getD i []]).length
        · rw [if_pos hl]
          exact List.mem_append_right _ (by simp)
        · rw [if_neg hl]
          exact collectMatches_acc_sub names ql limit n (i + 1) _ _
            (List.mem_append_right _ (by simp))
      · have hl : ¬ limit ≤ (acc ++ [names.getD i []]).length := by
          simp only [List.length_append, List.length_singleton]
          omega
        rw [if_neg hl]
        refine ih (i + 1) (acc ++ [names.getD i []]) tgt (by omega) h2 (by omega)
          (fun k hk1 hk2 => hmatch k (by omega) hk2) ?_
        simp only [List.length_append, List.length_singleton]
        omega

/-- C5 (amended): for an index whose lower-cased names are in nondecreasing
lexicographic order, and any nonempty query, the unbounded search (limit =
index size) returns a loaded name `N` exactly when the lower-cased `N` starts
with the lower-cased query; the empty query returns `[]`. -/
theorem c5_search_soundness (names : List Str) (q N : Str)
    (hsort : (names.map toLowerStr).Pairwise (fun a b => lexLt b a = false))
    (hq : q ≠ []) (hN : N ∈ names) :
    search names [] names.length = [] ∧
    (N ∈ search names q names.length ↔
      startsWithStr (toLowerStr N) (toLowerStr q) = true) := by
  have hsort2 : ∀ i j, i ≤ j → j < names.length →
      lexLt (toLowerStr (names.getD j [])) (toLowerStr (names.getD i [])) = false := by
    intro i j hij hj
    by_cases heq : i = j
    · subst heq; exact lexLt_irrefl _
    · have hi : i < names.length := by omega
      have hfin := List.pairwise_iff_get.mp hsort
        ⟨i, by simpa using hi⟩ ⟨j, by simpa using hj⟩ (by simpa using (by omega : i < j))
      rw [List.get_eq_getElem, List.get_eq_getElem, List.getElem_map, List.getElem_map] at hfin
      rw [List.getD_eq_getElem names [] hj, List.getD_eq_getElem names [] hi]
      simpa using hfin
  refine ⟨by simp [search], ?_⟩
  have hqfalse : q.isEmpty = false := by
    cases q with
    | nil => exact absurd rfl hq
    | cons a t => rfl
  rw [search, if_neg (by simp [hqfalse])]
  obtain ⟨h0s, hsr, hlow, hhigh⟩ :=
    bsearchGo_spec names (toLowerStr q) hsort2 names.length 0 names.length
      (le_refl _) (by omega) (by omega)
      (fun i hi => absurd hi (Nat.not_lt_zero i))
      (fun i hi1 hi2 => by omega)
  constructor
  · intro hmem
    rcases collectMatches_sound names (toLowerStr q) names.length names.length
        (bsearchGo names (toLowerStr q) names.length 0 names.length) [] N hmem with
      h1 | ⟨j, _, _, hj3, hj4⟩
    · simp at h1
    · exact hj4
  · intro hsw
    obtain ⟨⟨j, hjlen⟩, hjget⟩ := List.mem_iff_get.mp hN
    have hjD : names.getD j [] = N := by
      rw [List.getD_eq_getElem names [] hjlen]
      exact hjget
    have hjstart : bsearchGo names (toLowerStr q) names.length 0 names.length ≤ j := by
      by_contra hlt
      have hj2 := hlow j (by omega)
      rw [hjD] at hj2
      have hcontra := startsWith_not_lt (toLowerStr q) (toLowerStr N) hsw
      rw [hj2] at hcontra
      simp at hcontra
    have hres := collectMatches_complete names (toLowerStr q) names.length
      names.length (bsearchGo names (toLowerStr q) names.length 0 names.length)
      [] j hjstart hjlen (by omega)
      (by
        intro k hk1 hk2
        have hkq := hhigh k hk1 (by omega)
        have hks := hsort2 k j hk2 hjlen
        have hjsw : startsWithStr (toLowerStr (names.getD j [])) (toLowerStr q)
            = true := by rw [hjD]; exact hsw
        exact startsWith_sandwich (toLowerStr q) (toLowerStr (names.getD k []))
          (toLowerStr (names.getD j [])) hkq hks hjsw)
      (by simp; omega)
    rw [hjD] at hres
    exact hres

/-- Witness for `c5_search_soundness` at the spec's concrete index. -/
theorem c5_witness :
    (([alphaS, alphaCS, betaS].map toLowerStr).Pairwise
        (fun a b => lexLt b a = false) ∧
     (['a', 'l', 'p'] : Str) ≠ [] ∧ alphaCS ∈ [alphaS, alphaCS, betaS]) ∧
    (search [alphaS, alphaCS, betaS] [] 3 = [] ∧
     (alphaCS ∈ search [alphaS, alphaCS, betaS] ['a', 'l', 'p'] 3 ↔
       startsWithStr (toLowerStr alphaCS) (toLowerStr ['a', 'l', 'p']) = true)) :=
  ⟨⟨by decide, by decide, by decide⟩,
   c5_search_soundness [alphaS, alphaCS, betaS] ['a', 'l', 'p'] alphaCS
     (by decide) (by decide) (by decide)⟩

/-- Counterexample to C5 as stated: the index `["B", "a"]` passes the loader's
raw sortedness check (`"B" <= "a"` by code points), yet the unbounded
`search("a")` returns `[]` even though the loaded name `"a"` lower-starts with
the query: the binary search compares lower-cased names over a raw-sorted
list, so the iff of the claim fails at `N = "a"`. -/
theorem c5_counterexample :
    isSortedRaw [['B'], ['a']] = true ∧
    (['a'] : Str) ∈ [['B'], ['a']] ∧
    startsWithStr (toLowerStr ['a']) (toLowerStr ['a']) = true ∧
    search [['B'], ['a']] ['a'] 2 = [] := by
  refine ⟨by decide, by decide, by decide, by decide⟩
